import Mathlib

/-!
Verification of the FlashSol arbitrage monitor (TypeScript sources) against its
natural-language specification.  The TypeScript classes are shallowly embedded:
JavaScript `Map` objects become association lists with insertion-order
semantics, JavaScript floating-point numbers that can reach `NaN`/`Infinity`
become the `JSNum` type below, timestamps (`Date.now()` values) become integers
and exact numeric quantities become rationals.
-/

namespace Arb

/-! ### JavaScript `Map` as an association list

A JS `Map` preserves insertion order; `set` on an existing key replaces the
value in place, `delete` removes the entry, `get` returns the value or
`undefined`.  All maps in the sources are keyed by strings. -/

def jsMapGet {α : Type} : List (String × α) → String → Option α
  | [], _ => none
  | e :: rest, k => if e.1 = k then some e.2 else jsMapGet rest k

def jsMapSet {α : Type} : List (String × α) → String → α → List (String × α)
  | [], k, v => [(k, v)]
  | e :: rest, k, v => if e.1 = k then (k, v) :: rest else e :: jsMapSet rest k v

def jsMapDelete {α : Type} : List (String × α) → String → List (String × α)
  | [], _ => []
  | e :: rest, k => if e.1 = k then rest else e :: jsMapDelete rest k

/-! ### JavaScript number semantics

The detector's arithmetic runs on IEEE doubles and can reach `NaN` and
`±Infinity` (e.g. `tradeSize / liquidity` with zero liquidity).  `JSNum`
models a JS number as either such a special value or an exact rational;
the operations below follow the IEEE/ECMAScript rules for the cases that
can actually arise here (finite values are kept exact, and negative zero
is not modelled because no computation in the embedded code produces it).
Comparisons involving `NaN` are false; `Math.min`/`Math.max` propagate
`NaN`. -/

inductive JSNum : Type where
  | nan : JSNum
  | posInf : JSNum
  | negInf : JSNum
  | num : ℚ → JSNum
deriving DecidableEq

namespace JSNum

def jadd : JSNum → JSNum → JSNum
  | nan, _ => nan
  | _, nan => nan
  | posInf, negInf => nan
  | negInf, posInf => nan
  | posInf, _ => posInf
  | _, posInf => posInf
  | negInf, _ => negInf
  | _, negInf => negInf
  | num a, num b => num (a + b)

def jsub : JSNum → JSNum → JSNum
  | nan, _ => nan
  | _, nan => nan
  | posInf, posInf => nan
  | negInf, negInf => nan
  | posInf, _ => posInf
  | negInf, _ => negInf
  | num _, posInf => negInf
  | num _, negInf => posInf
  | num a, num b => num (a - b)

def jmul : JSNum → JSNum → JSNum
  | nan, _ => nan
  | _, nan => nan
  | posInf, posInf => posInf
  | posInf, negInf => negInf
  | negInf, posInf => negInf
  | negInf, negInf => posInf
  | posInf, num b => if b = 0 then nan else if 0 < b then posInf else negInf
  | num a, posInf => if a = 0 then nan else if 0 < a then posInf else negInf
  | negInf, num b => if b = 0 then nan else if 0 < b then negInf else posInf
  | num a, negInf => if a = 0 then nan else if 0 < a then negInf else posInf
  | num a, num b => num (a * b)

def jdiv : JSNum → JSNum → JSNum
  | nan, _ => nan
  | _, nan => nan
  | posInf, posInf => nan
  | posInf, negInf => nan
  | negInf, posInf => nan
  | negInf, negInf => nan
  | posInf, num b => if 0 ≤ b then posInf else negInf
  | negInf, num b => if 0 ≤ b then negInf else posInf
  | num _, posInf => num 0
  | num _, negInf => num 0
  | num a, num b =>
    if b = 0 then (if a = 0 then nan else if 0 < a then posInf else negInf)
    else num (a / b)

/-- JS `<`: any comparison with `NaN` is false. -/
def jltb : JSNum → JSNum → Bool
  | nan, _ => false
  | _, nan => false
  | posInf, _ => false
  | negInf, negInf => false
  | negInf, _ => true
  | num _, posInf => true
  | num _, negInf => false
  | num a, num b => decide (a < b)

/-- JS `<=`: any comparison with `NaN` is false. -/
def jleb : JSNum → JSNum → Bool
  | nan, _ => false
  | _, nan => false
  | negInf, _ => true
  | _, posInf => true
  | posInf, _ => false
  | num _, negInf => false
  | num a, num b => decide (a ≤ b)

/-- JS `>` (used as `jgtb a b` for `a > b`). -/
def jgtb (a b : JSNum) : Bool := jltb b a

/-- JS `Math.min` (NaN-propagating). -/
def jmin : JSNum → JSNum → JSNum
  | nan, _ => nan
  | _, nan => nan
  | posInf, b => b
  | a, posInf => a
  | negInf, _ => negInf
  | _, negInf => negInf
  | num a, num b => num (min a b)

/-- JS `Math.max` (NaN-propagating). -/
def jmax : JSNum → JSNum → JSNum
  | nan, _ => nan
  | _, nan => nan
  | negInf, b => b
  | a, negInf => a
  | posInf, _ => posInf
  | _, posInf => posInf
  | num a, num b => num (max a b)

/-- JS truthiness of a number: `0` and `NaN` are falsy. -/
def jsTruthy : JSNum → Bool
  | nan => false
  | num a => decide (a ≠ 0)
  | _ => true

/-- `x` is a finite (non-`NaN`, non-infinite) value. -/
def isNum (x : JSNum) : Prop := ∃ q : ℚ, x = num q

end JSNum

open JSNum

/-! ### Data model (src/types.ts)

Quotes constructed anywhere in the sources carry finite numeric fields
(`Math.random()`-based prices and liquidity, `Date.now()` timestamps), so the
leaf fields are embedded as exact rationals and integer timestamps; the
detector's internal arithmetic, which can produce `NaN`/`Infinity`, runs on
`JSNum`. -/

structure TokenPair where
  baseToken : String
  quoteToken : String
  baseMint : String
  quoteMint : String
deriving DecidableEq

structure PriceQuote where
  dex : String
  pair : TokenPair
  price : ℚ
  liquidity : ℚ
  timestamp : ℤ
  bid : Option ℚ := none
  ask : Option ℚ := none
  midPrice : Option ℚ := none
deriving DecidableEq

structure ArbitrageOpportunity where
  id : String
  pair : TokenPair
  buyDex : String
  sellDex : String
  buyPrice : ℚ
  sellPrice : ℚ
  spread : ℚ
  spreadPercent : ℚ
  grossProfit : ℚ
  estimatedFees : ℚ
  netProfit : ℚ
  netProfitPercent : ℚ
  tradeSize : ℚ
  timestamp : ℤ
  confidence : ℚ
deriving DecidableEq

/-- JS truthiness of an optional numeric field (`quote.ask && ...`):
`undefined` and `0` are falsy. -/
def truthyField : Option ℚ → Bool
  | none => false
  | some v => decide (v ≠ 0)

/-! ### ArbitrageDetector (src/arbitrage/detector.ts)

`Date.now()` is passed in as `now : ℤ` and `new Date().getHours()` as
`hour : ℕ`. -/

/-- `calculateSlippage` computes `tradeSize / quote.liquidity` and then applies
a step function of that ratio; everything after the division depends only on
the ratio, which `slippageFromRatio` captures.  (The `side` argument of the
source function is unused by its body.) -/
def slippageFromRatio (tradeSizeRatio : JSNum) : JSNum :=
  let baseSlippage :=
    if jleb tradeSizeRatio (num (1/1000)) then num (1/100)
    else if jleb tradeSizeRatio (num (5/1000)) then num (5/100)
    else if jleb tradeSizeRatio (num (1/100)) then num (1/10)
    else if jleb tradeSizeRatio (num (5/100)) then num (3/10)
    else jmin (num 2) (jmul tradeSizeRatio (num 10))
  let volatilityMultiplier : JSNum := num (12/10)
  jmul baseSlippage volatilityMultiplier

def calculateSlippage (tradeSize : ℚ) (quote : PriceQuote) : JSNum :=
  slippageFromRatio (jdiv (num tradeSize) (num quote.liquidity))

def getDexReliabilityScore (buyDex sellDex : String) : ℚ :=
  let score := fun d =>
    if d = "Raydium" then 95/100
    else if d = "Orca" then 93/100
    else if d = "Serum" then 90/100
    else 80/100
  (score buyDex + score sellDex) / 2

def getMarketVolatilityMultiplier (hour : ℕ) : ℚ :=
  if (13 ≤ hour ∧ hour ≤ 15) ∨ (20 ≤ hour ∧ hour ≤ 22) then 3
  else if 8 ≤ hour ∧ hour ≤ 20 then 2
  else 1

def getNetworkCongestionMultiplier (hour : ℕ) : ℚ :=
  if 13 ≤ hour ∧ hour ≤ 21 then 2
  else if (8 ≤ hour ∧ hour ≤ 13) ∨ (21 ≤ hour ∧ hour ≤ 24) then 3/2
  else 1

def getVolatilityPenalty : ℚ := 95/100

def calculateMevResistance (tradeSize : ℚ) (totalSlippage : JSNum) (hour : ℕ) : JSNum :=
  let m1 : JSNum := num 1
  let m2 :=
    if 10000 < tradeSize then jmul m1 (num (7/10))
    else if 1000 < tradeSize then jmul m1 (num (85/100))
    else m1
  let m3 :=
    if jgtb totalSlippage (num 1) then jmul m2 (num (6/10))
    else if jgtb totalSlippage (num (5/10)) then jmul m2 (num (8/10))
    else m2
  let m4 := if 13 ≤ hour ∧ hour ≤ 21 then jmul m3 (num (85/100)) else m3
  jmax (num (3/10)) m4

def calculateExecutionProbability (now : ℤ) (hour : ℕ)
    (buyQuote sellQuote : PriceQuote) : JSNum :=
  let p1 : JSNum := num 1
  let p2 := if 3/2 < getNetworkCongestionMultiplier hour then jmul p1 (num (8/10)) else p1
  let avgAge : ℚ := (((now - buyQuote.timestamp) + (now - sellQuote.timestamp) : ℤ) : ℚ) / 2
  let p3 :=
    if 10000 < avgAge then jmul p2 (num (7/10))
    else if 5000 < avgAge then jmul p2 (num (9/10))
    else p2
  let p4 := if 2 < getMarketVolatilityMultiplier hour then jmul p3 (num (3/4)) else p3
  jmax (num (2/5)) p4

/-- Body of `calculateConfidence` before the final clamp. -/
def confidenceRaw (now : ℤ) (hour : ℕ) (buyQuote sellQuote : PriceQuote)
    (tradeSize : ℚ) : JSNum :=
  let c0 : JSNum := num 1
  -- 1. quote freshness
  let buyAge := now - buyQuote.timestamp
  let sellAge := now - sellQuote.timestamp
  let c1 :=
    if 15000 < buyAge ∨ 15000 < sellAge then jmul c0 (num (5/10))
    else if 5000 < buyAge ∨ 5000 < sellAge then jmul c0 (num (8/10))
    else c0
  -- 2. liquidity adequacy
  let minLiquidity := tradeSize * 3
  let c2 :=
    if buyQuote.liquidity < minLiquidity ∨ sellQuote.liquidity < minLiquidity then
      let buyRatio := jdiv (num buyQuote.liquidity) (num minLiquidity)
      let sellRatio := jdiv (num sellQuote.liquidity) (num minLiquidity)
      jmul c1 (jmax (num (3/10)) (jmin buyRatio sellRatio))
    else c1
  -- 3. slippage impact
  let buySlippage := calculateSlippage tradeSize buyQuote
  let sellSlippage := calculateSlippage tradeSize sellQuote
  let totalSlippage := jadd buySlippage sellSlippage
  let c3 :=
    if jgtb totalSlippage (num 1) then jmul c2 (num (6/10))
    else if jgtb totalSlippage (num (5/10)) then jmul c2 (num (8/10))
    else c2
  -- 4. orderbook depth
  let c4 :=
    if truthyField buyQuote.ask && truthyField buyQuote.bid &&
        truthyField sellQuote.ask && truthyField sellQuote.bid then
      let buySpread := jmul (jdiv (num (buyQuote.ask.getD 0 - buyQuote.bid.getD 0))
        (num buyQuote.price)) (num 100)
      let sellSpread := jmul (jdiv (num (sellQuote.ask.getD 0 - sellQuote.bid.getD 0))
        (num sellQuote.price)) (num 100)
      if jltb buySpread (num (1/10)) && jltb sellSpread (num (1/10)) then
        jmul c3 (num (115/100))
      else if jgtb buySpread (num (5/10)) || jgtb sellSpread (num (5/10)) then
        jmul c3 (num (85/100))
      else c3
    else jmul c3 (num (9/10))
  -- 5. DEX reliability factor
  let c5 := jmul c4 (num (getDexReliabilityScore buyQuote.dex sellQuote.dex))
  -- 6. market volatility consideration
  let c6 := jmul c5 (num getVolatilityPenalty)
  -- 7. MEV resistance assessment
  let c7 := jmul c6 (calculateMevResistance tradeSize totalSlippage hour)
  -- 8. execution success probability
  jmul c7 (calculateExecutionProbability now hour buyQuote sellQuote)

/-- `calculateConfidence`: the factor chain followed by the clamp
`Math.max(0.1, Math.min(1.0, confidence))`. -/
def calculateConfidence (now : ℤ) (hour : ℕ) (buyQuote sellQuote : PriceQuote)
    (tradeSize : ℚ) : JSNum :=
  jmax (num (1/10)) (jmin (num 1) (confidenceRaw now hour buyQuote sellQuote tradeSize))

/-! #### Gating state (`recentOpportunities` rate-limit ledger) -/

structure ArbitrageDetector where
  profitThreshold : ℚ
  tradeSize : ℚ
  recentOpportunities : List (String × ℤ)
deriving DecidableEq

/-- The rate-limit key
`pair.baseToken-pair.quoteToken-buyDex-sellDex`. -/
def opportunityKey (o : ArbitrageOpportunity) : String :=
  o.pair.baseToken ++ "-" ++ o.pair.quoteToken ++ "-" ++ o.buyDex ++ "-" ++ o.sellDex

/-- `cleanupRecentOpportunities`: drop ledger entries with
`timestamp < now - 300000`. -/
def cleanupRecentOpportunities (now : ℤ) (d : ArbitrageDetector) : ArbitrageDetector :=
  { d with recentOpportunities :=
      d.recentOpportunities.filter fun e => decide (now - 300000 ≤ e.2) }

/-- `shouldReportOpportunity`: profit gate, confidence gate, 30s rate limit;
on acceptance the timestamp is recorded and only then is the ledger cleaned. -/
def shouldReportOpportunity (d : ArbitrageDetector) (o : ArbitrageOpportunity)
    (now : ℤ) : Bool × ArbitrageDetector :=
  if o.netProfitPercent < d.profitThreshold then (false, d)
  else if o.confidence < 6/10 then (false, d)
  else
    let key := opportunityKey o
    let lastReported := (jsMapGet d.recentOpportunities key).getD 0
    if now - lastReported < 30000 then (false, d)
    else
      let d' := { d with recentOpportunities := jsMapSet d.recentOpportunities key now }
      (true, cleanupRecentOpportunities now d')

/-! ### DataManager (src/data/manager.ts) -/

structure CacheEntry where
  data : PriceQuote
  timestamp : ℤ
  ttl : ℤ
deriving DecidableEq

structure PriceHistory where
  prices : List PriceQuote
  maxSize : ℕ
deriving DecidableEq

structure OpportunityHistory where
  opportunities : List ArbitrageOpportunity
  maxSize : ℕ
deriving DecidableEq

structure DataManager where
  priceCache : List (String × CacheEntry)
  priceHistory : List (String × PriceHistory)
  opportunityHistory : OpportunityHistory
  cacheTTL : ℤ
  maxHistorySize : ℕ
deriving DecidableEq

/-- The constructor: empty caches, opportunity capacity hardcoded to 1000. -/
def DataManager.init (cacheTTL : ℤ) (maxHistorySize : ℕ) : DataManager :=
  { priceCache := [], priceHistory := [],
    opportunityHistory := { opportunities := [], maxSize := 1000 },
    cacheTTL := cacheTTL, maxHistorySize := maxHistorySize }

def getPriceCacheKey (dex : String) (pair : TokenPair) : String :=
  dex ++ ":" ++ pair.baseMint ++ ":" ++ pair.quoteMint

def getPairKey (pair : TokenPair) : String :=
  pair.baseMint ++ ":" ++ pair.quoteMint

/-- JS `s.includes(pat)`: `pat` occurs as a contiguous substring of `s`. -/
def strContains (s pat : String) : Bool :=
  s.data.tails.any fun t => pat.data.isPrefixOf t

/-- JS `arr.slice(-n)` on a list of length `> n`: the last `n` elements —
except that `slice(-0)` is `slice(0)`, i.e. the whole array. -/
def jsSliceLast {α : Type} (n : ℕ) (l : List α) : List α :=
  if n = 0 then l else l.drop (l.length - n)

/-- `storePriceQuote`: upsert the cache entry with a fresh TTL, append to the
pair's history and trim it to `maxSize`. -/
def storePriceQuote (dm : DataManager) (quote : PriceQuote) (now : ℤ) : DataManager :=
  let cacheKey := getPriceCacheKey quote.dex quote.pair
  let cache' := jsMapSet dm.priceCache cacheKey
    { data := quote, timestamp := now, ttl := dm.cacheTTL }
  let historyKey := getPairKey quote.pair
  let history := (jsMapGet dm.priceHistory historyKey).getD
    { prices := [], maxSize := dm.maxHistorySize }
  let pushed := history.prices ++ [quote]
  let trimmed :=
    if history.maxSize < pushed.length then jsSliceLast history.maxSize pushed else pushed
  { dm with priceCache := cache',
            priceHistory := jsMapSet dm.priceHistory historyKey
              { prices := trimmed, maxSize := history.maxSize } }

/-- `getLatestPrice`: `null` on a miss; an expired entry is deleted on access
and reported as a miss (lazy eviction). -/
def getLatestPrice (dm : DataManager) (dex : String) (pair : TokenPair) (now : ℤ) :
    Option PriceQuote × DataManager :=
  let cacheKey := getPriceCacheKey dex pair
  match jsMapGet dm.priceCache cacheKey with
  | none => (none, dm)
  | some entry =>
    if entry.ttl < now - entry.timestamp then
      (none, { dm with priceCache := jsMapDelete dm.priceCache cacheKey })
    else
      (some entry.data, dm)

/-- `getAllLatestPrices`: iterate the whole cache in insertion order, keep the
unexpired entries whose key *contains* the pair key as a substring, and build
a map keyed by the quote's `dex` field.  It reads but never mutates the
manager, so the returned state is the input state. -/
def getAllLatestPrices (dm : DataManager) (pair : TokenPair) (now : ℤ) :
    List (String × PriceQuote) × DataManager :=
  let pairKey := getPairKey pair
  let prices := dm.priceCache.foldl
    (fun acc kv =>
      if strContains kv.1 pairKey then
        if now - kv.2.timestamp ≤ kv.2.ttl then jsMapSet acc kv.2.data.dex kv.2.data
        else acc
      else acc) []
  (prices, dm)

/-- `storeOpportunity`: append and trim to the opportunity capacity. -/
def storeOpportunity (dm : DataManager) (opportunity : ArbitrageOpportunity) : DataManager :=
  let pushed := dm.opportunityHistory.opportunities ++ [opportunity]
  let trimmed :=
    if dm.opportunityHistory.maxSize < pushed.length then
      jsSliceLast dm.opportunityHistory.maxSize pushed
    else pushed
  { dm with opportunityHistory :=
      { opportunities := trimmed, maxSize := dm.opportunityHistory.maxSize } }

/-! ### DEXManager and RealTimeMonitor (src/dex/manager.ts, src/monitor.ts) -/

structure DexSource where
  name : String
  isEnabled : Bool
deriving DecidableEq

/-- `DEXManager.initializeAll`: fan out `initialize()` to every source; a
source whose initialization throws is caught, logged and marked disabled, a
successful one enables itself; `Promise.allSettled` means the call as a whole
never rejects, whatever the per-source outcomes (`initFails`). -/
def initializeAll (dexes : List DexSource) (initFails : String → Bool) : List DexSource :=
  dexes.map fun d =>
    if initFails d.name then { d with isEnabled := false } else { d with isEnabled := true }

structure RealTimeMonitor where
  isRunning : Bool
  monitoredPairs : List TokenPair
  dexes : List DexSource
  slotSubscription : Bool
  healthCheckInterval : Bool
  priceUpdateInterval : Bool
  summaryDisplayInterval : Bool
deriving DecidableEq

/-- `COMMON_PAIRS` from src/config.ts. -/
def commonPairs : List TokenPair :=
  [ { baseToken := "SOL", quoteToken := "USDC",
      baseMint := "So11111111111111111111111111111111111111112",
      quoteMint := "EPjFWdd5AufqSSqeM2qN1xzybapC8G4wEGGkZwyTDt1v" },
    { baseToken := "ETH", quoteToken := "USDC",
      baseMint := "7vfCXTUXx5WJV5JADk17DUJ4ksgau7utNKj4b963voxs",
      quoteMint := "EPjFWdd5AufqSSqeM2qN1xzybapC8G4wEGGkZwyTDt1v" },
    { baseToken := "BTC", quoteToken := "USDC",
      baseMint := "9n4nbM75f5Ui33ZbPYXn59EwSgE8CGsHtAeTH5YFeJ9E",
      quoteMint := "EPjFWdd5AufqSSqeM2qN1xzybapC8G4wEGGkZwyTDt1v" },
    { baseToken := "USDC", quoteToken := "USDT",
      baseMint := "EPjFWdd5AufqSSqeM2qN1xzybapC8G4wEGGkZwyTDt1v",
      quoteMint := "Es9vMFrzaCERmJfrF4H2FYD4KCoNkY11McCe8BenwNYB" } ]

/-- `RealTimeMonitor.start`, with the per-source initialization outcomes as a
parameter.  The body runs inside `try/catch`, but none of its steps can throw:
component initialization swallows per-source failures (`initializeAll`), the
subscription setters guard and catch internally, and the interval setups only
register timers.  There is no check of `isRunning` anywhere on this path; the
method unconditionally appends `COMMON_PAIRS` to the monitored set, starts the
timers and sets `isRunning = true`. -/
def RealTimeMonitor.start (m : RealTimeMonitor) (initFails : String → Bool) :
    Except String RealTimeMonitor :=
  Except.ok
    { m with dexes := initializeAll m.dexes initFails,
             monitoredPairs := m.monitoredPairs ++ commonPairs,
             slotSubscription := true,
             priceUpdateInterval := true,
             healthCheckInterval := true,
             summaryDisplayInterval := true,
             isRunning := true }

/-! ### Sequences of store operations (for the history-bound claims)

`put` (`storePriceQuote`) and `recordOpportunity` (`storeOpportunity`) calls in
arbitrary interleavings. -/

inductive StoreOp : Type where
  | storePrice (quote : PriceQuote) (now : ℤ) : StoreOp
  | storeOpp (opportunity : ArbitrageOpportunity) : StoreOp
deriving DecidableEq

def applyStoreOp (dm : DataManager) : StoreOp → DataManager
  | StoreOp.storePrice q now => storePriceQuote dm q now
  | StoreOp.storeOpp o => storeOpportunity dm o

def runStoreOps (dm : DataManager) (ops : List StoreOp) : DataManager :=
  ops.foldl applyStoreOp dm

/-- The quotes a sequence of operations appends to the history of pair key
`k`, in arrival order. -/
def priceArrivals (k : String) (ops : List StoreOp) : List PriceQuote :=
  ops.filterMap fun op =>
    match op with
    | StoreOp.storePrice q _ => if getPairKey q.pair = k then some q else none
    | StoreOp.storeOpp _ => none

/-- The opportunities a sequence of operations records, in arrival order. -/
def oppArrivals (ops : List StoreOp) : List ArbitrageOpportunity :=
  ops.filterMap fun op =>
    match op with
    | StoreOp.storePrice _ _ => none
    | StoreOp.storeOpp o => some o

/-- The last `n` elements of a list (everything, if it is shorter). -/
def lastN {α : Type} (n : ℕ) (l : List α) : List α := l.drop (l.length - n)

/-- The price history currently held for pair key `k` (empty if absent). -/
def historyPrices (dm : DataManager) (k : String) : List PriceQuote :=
  ((jsMapGet dm.priceHistory k).getD { prices := [], maxSize := 0 }).prices

/-- Invariant tying a manager to its configured capacities. -/
def DMInv (cap : ℕ) (dm : DataManager) : Prop :=
  dm.maxHistorySize = cap ∧ dm.opportunityHistory.maxSize = 1000 ∧
  (∀ k h, jsMapGet dm.priceHistory k = some h →
    h.maxSize = cap ∧ h.prices.length ≤ cap) ∧
  dm.opportunityHistory.opportunities.length ≤ 1000

/-! ## Concrete fixtures used by witnesses and counterexamples -/

def pairAB : TokenPair :=
  { baseToken := "SOL", quoteToken := "USDC", baseMint := "MintA", quoteMint := "MintB" }

def mkQuote (dex : String) (pair : TokenPair) (price liquidity : ℚ) (ts : ℤ) : PriceQuote :=
  { dex := dex, pair := pair, price := price, liquidity := liquidity, timestamp := ts }

def mkMonitor (running : Bool) (pairs : List TokenPair) (dexes : List DexSource) :
    RealTimeMonitor :=
  { isRunning := running, monitoredPairs := pairs, dexes := dexes,
    slotSubscription := running, healthCheckInterval := running,
    priceUpdateInterval := running, summaryDisplayInterval := running }

def threeDexes : List DexSource :=
  [{ name := "Raydium", isEnabled := true }, { name := "Orca", isEnabled := true },
    { name := "Serum", isEnabled := true }]

def serumDm : DataManager :=
  storePriceQuote (DataManager.init 30000 1000) (mkQuote "Serum" pairAB 100 500000 0) 0

def serumEntry : CacheEntry :=
  { data := mkQuote "Serum" pairAB 100 500000 0, timestamp := 0, ttl := 30000 }

def gateOppGood : ArbitrageOpportunity :=
  { id := "opp-1", pair := pairAB, buyDex := "Raydium", sellDex := "Orca",
    buyPrice := 100, sellPrice := 105, spread := 5, spreadPercent := 5,
    grossProfit := 5, estimatedFees := 2, netProfit := 3, netProfitPercent := 3,
    tradeSize := 100, timestamp := 0, confidence := 9/10 }

def gateOppLowConf : ArbitrageOpportunity :=
  { gateOppGood with id := "opp-2", confidence := 1/10 }

def staleLedgerDetector : ArbitrageDetector :=
  { profitThreshold := 2/10, tradeSize := 100, recentOpportunities := [("old-key", 0)] }

def threeStores : List StoreOp :=
  [StoreOp.storePrice (mkQuote "Raydium" pairAB 100 500000 0) 0,
    StoreOp.storePrice (mkQuote "Orca" pairAB 101 500000 5) 5,
    StoreOp.storePrice (mkQuote "Serum" pairAB 102 500000 9) 9]

def pairX : TokenPair :=
  { baseToken := "XTOK", quoteToken := "USDC", baseMint := "XMintA", quoteMint := "MintB" }

def dmCross : DataManager :=
  storePriceQuote (DataManager.init 30000 1000) (mkQuote "DexZ" pairX 100 500000 0) 0

def dmLiveExpired : DataManager :=
  storePriceQuote
    (storePriceQuote (DataManager.init 30000 1000) (mkQuote "DexE" pairAB 100 500000 0) 0)
    (mkQuote "DexL" pairAB 101 600000 50000) 50000

def zeroLiqBuy : PriceQuote := mkQuote "Raydium" pairAB 100 0 0

def zeroLiqSell : PriceQuote := mkQuote "Orca" pairAB 105 0 0

def cexBuyQuote : PriceQuote := mkQuote "DexB" pairAB 100 0 0

def cexSellQuote : PriceQuote := mkQuote "DexS" pairAB 100 (-1) 0

/-! ## Lemma library -/

theorem jsMapGet_set_self {α : Type} (l : List (String × α)) (k : String) (v : α) :
    jsMapGet (jsMapSet l k v) k = some v := by
  induction l with
  | nil => simp [jsMapGet, jsMapSet]
  | cons e rest ih =>
    by_cases h : e.1 = k
    · simp [jsMapGet, jsMapSet, h]
    · simp [jsMapGet, jsMapSet, h, ih]

theorem jsMapGet_set_ne {α : Type} (l : List (String × α)) (k k' : String) (v : α)
    (h : k ≠ k') : jsMapGet (jsMapSet l k v) k' = jsMapGet l k' := by
  induction l with
  | nil => simp [jsMapGet, jsMapSet, h]
  | cons e rest ih =>
    by_cases he : e.1 = k
    · simp [jsMapGet, jsMapSet, he, h]
    · simp only [jsMapSet, he, if_neg, not_false_iff]
      by_cases he' : e.1 = k'
      · simp [jsMapGet, he']
      · simp [jsMapGet, he', ih]

theorem jsMapGet_mem_keys {α : Type} (l : List (String × α)) (k : String) (v : α)
    (hget : jsMapGet l k = some v) : k ∈ l.map Prod.fst := by
  induction l with
  | nil => simp [jsMapGet] at hget
  | cons e rest ih =>
    by_cases he : e.1 = k
    · simp [he]
    · simp only [jsMapGet, he, if_neg, not_false_iff] at hget
      simp [ih hget]

theorem jsMapGet_filter {α : Type} (p : String × α → Bool) (l : List (String × α))
    (k : String) (v : α) (hget : jsMapGet l k = some v) (hp : p (k, v) = true) :
    jsMapGet (l.filter p) k = some v := by
  induction l with
  | nil => simp [jsMapGet] at hget
  | cons e rest ih =>
    obtain ⟨ek, ev⟩ := e
    by_cases he : ek = k
    · subst he
      simp only [jsMapGet, if_true, eq_self_iff_true, Option.some.injEq] at hget
      subst hget
      simp [List.filter_cons, hp, jsMapGet]
    · simp only [jsMapGet, he, if_neg, not_false_iff] at hget
      rcases hpe : p (ek, ev) with _ | _ <;>
        simp [List.filter_cons, hpe, jsMapGet, he, ih hget]

theorem jsMapGet_delete_self_of_nodup {α : Type} (l : List (String × α)) (k : String)
    (hnd : (l.map Prod.fst).Nodup) : jsMapGet (jsMapDelete l k) k = none := by
  induction l with
  | nil => simp [jsMapGet, jsMapDelete]
  | cons e rest ih =>
    simp only [List.map_cons, List.nodup_cons] at hnd
    by_cases he : e.1 = k
    · subst he
      simp only [jsMapDelete, if_true, eq_self_iff_true]
      cases hres : jsMapGet rest e.1 with
      | none => rfl
      | some v => exact absurd (jsMapGet_mem_keys rest e.1 v hres) hnd.1
    · simp [jsMapDelete, he, jsMapGet, ih hnd.2]

theorem jsMapSet_keys {α : Type} (l : List (String × α)) (k : String) (v : α) :
    (jsMapSet l k v).map Prod.fst =
      if k ∈ l.map Prod.fst then l.map Prod.fst else l.map Prod.fst ++ [k] := by
  induction l with
  | nil => simp [jsMapSet]
  | cons e rest ih =>
    by_cases he : e.1 = k
    · simp [jsMapSet, he]
    · simp only [jsMapSet, he, if_neg, not_false_iff, List.map_cons, ih,
        List.mem_cons]
      by_cases hk : k ∈ rest.map Prod.fst
      · simp [hk, Ne.symm he]
      · simp [hk, Ne.symm he]

theorem jsMapSet_map_fst_nodup {α : Type} (l : List (String × α)) (k : String) (v : α)
    (hnd : (l.map Prod.fst).Nodup) : ((jsMapSet l k v).map Prod.fst).Nodup := by
  rw [jsMapSet_keys]
  by_cases hk : k ∈ l.map Prod.fst
  · simpa [hk] using hnd
  · simp only [hk, if_neg, not_false_iff]
    refine List.Nodup.append hnd (List.nodup_singleton k) ?_
    intro a ha hb
    simp only [List.mem_singleton] at hb
    subst hb
    exact hk ha

namespace JSNum

theorem jmul_num (a b : ℚ) : jmul (num a) (num b) = num (a * b) := rfl

theorem jmin_num (a b : ℚ) : jmin (num a) (num b) = num (min a b) := rfl

theorem jmax_num (a b : ℚ) : jmax (num a) (num b) = num (max a b) := rfl

theorem jdiv_num_of_ne_zero (a : ℚ) {b : ℚ} (hb : b ≠ 0) :
    jdiv (num a) (num b) = num (a / b) := by
  simp [jdiv, hb]

theorem isNum_num (q : ℚ) : isNum (num q) := ⟨q, rfl⟩

theorem isNum_jmul {x y : JSNum} (hx : isNum x) (hy : isNum y) : isNum (jmul x y) := by
  obtain ⟨a, rfl⟩ := hx
  obtain ⟨b, rfl⟩ := hy
  exact ⟨a * b, rfl⟩

theorem isNum_jmin {x y : JSNum} (hx : isNum x) (hy : isNum y) : isNum (jmin x y) := by
  obtain ⟨a, rfl⟩ := hx
  obtain ⟨b, rfl⟩ := hy
  exact ⟨min a b, rfl⟩

theorem isNum_jmax {x y : JSNum} (hx : isNum x) (hy : isNum y) : isNum (jmax x y) := by
  obtain ⟨a, rfl⟩ := hx
  obtain ⟨b, rfl⟩ := hy
  exact ⟨max a b, rfl⟩

/-- The final clamp `Math.max(0.1, Math.min(1.0, c))` of any finite value lies
in `[0.1, 1]`. -/
theorem clamp_isNum {x : JSNum} (hx : isNum x) :
    ∃ c : ℚ, jmax (num (1/10)) (jmin (num 1) x) = num c ∧ 1/10 ≤ c ∧ c ≤ 1 := by
  obtain ⟨a, rfl⟩ := hx
  refine ⟨max (1/10) (min 1 a), rfl, le_max_left _ _, ?_⟩
  exact max_le (by norm_num) (min_le_left _ _)

end JSNum

/-! ## Claims -/

/-- Claim C2: for any two quotes stored in order for the same
`(sourceName, pair)`, a `latest` lookup immediately after the second store
returns the second quote, regardless of the relative order of their captured
timestamps (last-write-wins; out-of-order arrival does not crash the store).
The quotes' own `timestamp` fields and the store times `t1`, `t2` are fully
unconstrained. -/
theorem latest_after_second_store (dm : DataManager) (q1 q2 : PriceQuote) (t1 t2 : ℤ)
    (httl : 0 ≤ dm.cacheTTL) (_hdex : q1.dex = q2.dex) (_hpair : q1.pair = q2.pair) :
    (getLatestPrice (storePriceQuote (storePriceQuote dm q1 t1) q2 t2)
      q2.dex q2.pair t2).1 = some q2 := by
  have hget : jsMapGet (storePriceQuote (storePriceQuote dm q1 t1) q2 t2).priceCache
      (getPriceCacheKey q2.dex q2.pair) =
      some { data := q2, timestamp := t2, ttl := dm.cacheTTL } := by
    simp [storePriceQuote, jsMapGet_set_self]
  simp only [getLatestPrice, hget]
  rw [if_neg]
  simp only [not_lt]
  omega

theorem latest_after_second_store_witness :
    ((0 : ℤ) ≤ (DataManager.init 30000 1000).cacheTTL ∧
      (mkQuote "Raydium" pairAB 101 500000 900).dex =
        (mkQuote "Raydium" pairAB 99 400000 800).dex ∧
      (mkQuote "Raydium" pairAB 101 500000 900).pair =
        (mkQuote "Raydium" pairAB 99 400000 800).pair) ∧
    (getLatestPrice
      (storePriceQuote
        (storePriceQuote (DataManager.init 30000 1000)
          (mkQuote "Raydium" pairAB 101 500000 900) 1000)
        (mkQuote "Raydium" pairAB 99 400000 800) 1500)
      (mkQuote "Raydium" pairAB 99 400000 800).dex
      (mkQuote "Raydium" pairAB 99 400000 800).pair 1500).1 =
      some (mkQuote "Raydium" pairAB 99 400000 800) :=
  ⟨⟨by decide, rfl, rfl⟩,
    latest_after_second_store (DataManager.init 30000 1000) _ _ 1000 1500
      (by decide) rfl rfl⟩

/-- Claim C3: an entry stored at `t0` with the configured TTL is reported
absent by `latest` at any `now` with `now - t0 > ttl`, even with no sweep in
between, and the lazy eviction removes the expired entry from the cache. -/
theorem latest_expired_is_absent_and_evicted (dm : DataManager) (q : PriceQuote)
    (t0 now : ℤ) (hnd : (dm.priceCache.map Prod.fst).Nodup)
    (hexp : dm.cacheTTL < now - t0) :
    (getLatestPrice (storePriceQuote dm q t0) q.dex q.pair now).1 = none ∧
    jsMapGet (getLatestPrice (storePriceQuote dm q t0) q.dex q.pair now).2.priceCache
      (getPriceCacheKey q.dex q.pair) = none := by
  have hget : jsMapGet (storePriceQuote dm q t0).priceCache
      (getPriceCacheKey q.dex q.pair) =
      some { data := q, timestamp := t0, ttl := dm.cacheTTL } := by
    simp [storePriceQuote, jsMapGet_set_self]
  have hnd' : ((storePriceQuote dm q t0).priceCache.map Prod.fst).Nodup := by
    simpa [storePriceQuote] using
      jsMapSet_map_fst_nodup dm.priceCache (getPriceCacheKey q.dex q.pair)
        { data := q, timestamp := t0, ttl := dm.cacheTTL } hnd
  simp only [getLatestPrice, hget]
  rw [if_pos (by simpa using hexp)]
  exact ⟨rfl, jsMapGet_delete_self_of_nodup _ _ hnd'⟩

theorem latest_expired_is_absent_and_evicted_witness :
    ((((DataManager.init 30000 1000).priceCache.map Prod.fst).Nodup) ∧
      (DataManager.init 30000 1000).cacheTTL < (40000 : ℤ) - 1000) ∧
    ((getLatestPrice
        (storePriceQuote (DataManager.init 30000 1000)
          (mkQuote "Orca" pairAB 100 500000 1000) 1000)
        (mkQuote "Orca" pairAB 100 500000 1000).dex
        (mkQuote "Orca" pairAB 100 500000 1000).pair 40000).1 = none ∧
      jsMapGet (getLatestPrice
        (storePriceQuote (DataManager.init 30000 1000)
          (mkQuote "Orca" pairAB 100 500000 1000) 1000)
        (mkQuote "Orca" pairAB 100 500000 1000).dex
        (mkQuote "Orca" pairAB 100 500000 1000).pair 40000).2.priceCache
        (getPriceCacheKey (mkQuote "Orca" pairAB 100 500000 1000).dex
          (mkQuote "Orca" pairAB 100 500000 1000).pair) = none) :=
  ⟨⟨by decide, by decide⟩,
    latest_expired_is_absent_and_evicted (DataManager.init 30000 1000)
      (mkQuote "Orca" pairAB 100 500000 1000) 1000 40000 (by decide) (by decide)⟩

/-- Claim C10: `getAllLatestPrices` is a pure read — the manager state after
the call is exactly the state before it, expired entries included — whereas
`getLatestPrice` deletes an expired entry it touches. -/
theorem allLatest_is_pure_read (dm : DataManager) (pair : TokenPair) (now : ℤ) :
    (getAllLatestPrices dm pair now).2 = dm ∧
    (∀ dex entry, jsMapGet dm.priceCache (getPriceCacheKey dex pair) = some entry →
      entry.ttl < now - entry.timestamp →
      (getLatestPrice dm dex pair now).2.priceCache =
        jsMapDelete dm.priceCache (getPriceCacheKey dex pair)) := by
  refine ⟨rfl, ?_⟩
  intro dex entry hget hexp
  simp only [getLatestPrice, hget]
  rw [if_pos hexp]

theorem allLatest_is_pure_read_witness :
    ((getAllLatestPrices serumDm pairAB 99999).2 = serumDm) ∧
    (jsMapGet serumDm.priceCache (getPriceCacheKey "Serum" pairAB) = some serumEntry →
      serumEntry.ttl < 99999 - serumEntry.timestamp →
      (getLatestPrice serumDm "Serum" pairAB 99999).2.priceCache =
        jsMapDelete serumDm.priceCache (getPriceCacheKey "Serum" pairAB)) :=
  ⟨(allLatest_is_pure_read serumDm pairAB 99999).1,
    (allLatest_is_pure_read serumDm pairAB 99999).2 "Serum" serumEntry⟩

/-- Claim C7 counterexample: a monitor whose three sources all fail to
initialize still starts successfully (`initializeAll` swallows every failure
via per-source `catch` + `Promise.allSettled`) and sets `isRunning = true` —
`start()` does not surface a hard failure and the orchestrator does enter the
running state. -/
theorem start_all_sources_failing_still_runs_cex :
    (match RealTimeMonitor.start (mkMonitor false [] threeDexes) (fun _ => true) with
      | Except.ok m' => m'.isRunning
      | Except.error _ => false) = true := rfl

/-- Claim C7, amended: when every source's initialization throws, `start()`
still resolves successfully and the monitor enters the running state, with
every source marked disabled; no hard failure is surfaced. -/
theorem start_succeeds_when_all_sources_fail (m : RealTimeMonitor)
    (initFails : String → Bool) (hall : ∀ d ∈ m.dexes, initFails d.name = true) :
    ∃ m', RealTimeMonitor.start m initFails = Except.ok m' ∧ m'.isRunning = true ∧
      ∀ d ∈ m'.dexes, d.isEnabled = false := by
  refine ⟨_, rfl, rfl, ?_⟩
  intro d hd
  simp only [initializeAll, List.mem_map] at hd
  obtain ⟨d0, hd0, rfl⟩ := hd
  simp [hall d0 hd0]

theorem start_succeeds_when_all_sources_fail_witness :
    (∀ d ∈ (mkMonitor false [] threeDexes).dexes, (fun (_ : String) => true) d.name = true) ∧
    (∃ m', RealTimeMonitor.start (mkMonitor false [] threeDexes) (fun _ => true) =
        Except.ok m' ∧ m'.isRunning = true ∧ ∀ d ∈ m'.dexes, d.isEnabled = false) :=
  ⟨by decide, start_succeeds_when_all_sources_fail _ (fun _ => true) (by decide)⟩

/-- Claim C8 counterexample: calling `start()` on a monitor that is already
running is not rejected — it returns successfully (and performs the startup
again) instead of erroring out. -/
theorem start_while_running_not_rejected_cex :
    (match RealTimeMonitor.start (mkMonitor true [] threeDexes) (fun _ => false) with
      | Except.ok m' => m'.isRunning
      | Except.error _ => false) = true := rfl

/-- Claim C8, amended: `start()` has no state-machine guard: invoked while the
monitor is already running it does not error — it re-runs the startup sequence
(re-appending the common pairs, restarting timers) and leaves the monitor
running. -/
theorem start_while_running_performs_second_startup (m : RealTimeMonitor)
    (initFails : String → Bool) (_hrun : m.isRunning = true) :
    ∃ m', RealTimeMonitor.start m initFails = Except.ok m' ∧ m'.isRunning = true ∧
      m'.monitoredPairs = m.monitoredPairs ++ commonPairs :=
  ⟨_, rfl, rfl, rfl⟩

theorem start_while_running_performs_second_startup_witness :
    ((mkMonitor true commonPairs threeDexes).isRunning = true) ∧
    (∃ m', RealTimeMonitor.start (mkMonitor true commonPairs threeDexes)
        (fun _ => false) = Except.ok m' ∧ m'.isRunning = true ∧
      m'.monitoredPairs = (mkMonitor true commonPairs threeDexes).monitoredPairs ++
        commonPairs) :=
  ⟨rfl, start_while_running_performs_second_startup _ (fun _ => false) rfl⟩

/-! ### Claim C1: the gating check -/

/-- Claim C1 counterexample: the ledger is NOT purged on every check.  A check
that fails the confidence gate returns before the cleanup runs: at
`now = 400000` the entry `("old-key", 0)` is older than five minutes
(`0 < 400000 - 300000`) yet survives the check untouched. -/
theorem gating_no_purge_on_rejecting_check_cex :
    (("old-key", (0 : ℤ)) ∈
      (shouldReportOpportunity staleLedgerDetector gateOppLowConf
        400000).2.recentOpportunities) ∧
    ((0 : ℤ) < 400000 - 300000) := by
  have h : shouldReportOpportunity staleLedgerDetector gateOppLowConf 400000 =
      (false, staleLedgerDetector) := by
    have hc1 : ¬(gateOppLowConf.netProfitPercent < staleLedgerDetector.profitThreshold) := by
      norm_num [gateOppLowConf, gateOppGood, staleLedgerDetector]
    have hc2 : gateOppLowConf.confidence < 6/10 := by
      norm_num [gateOppLowConf, gateOppGood]
    rw [shouldReportOpportunity, if_neg hc1, if_pos hc2]
  rw [h]
  refine ⟨by simp [staleLedgerDetector], by norm_num⟩

/-- Claim C1, amended ("purged on each check" becomes "purged on each
*accepting* check"): if the gating check accepts, then the candidate met the
profit threshold, its confidence was at least 0.6, and no acceptance for the
same key was recorded within the last 30 seconds; the accepting check records
`now` for the key and leaves no ledger entry older than 5 minutes; and any
further check for the same key within 30 seconds of the acceptance is
rejected — so a second `detect` call within 30 seconds on an unchanged,
still-profitable input is gated-accepted only the first time. -/
theorem shouldReport_gating (d : ArbitrageDetector) (o : ArbitrageOpportunity)
    (now : ℤ) (hacc : (shouldReportOpportunity d o now).1 = true) :
    (d.profitThreshold ≤ o.netProfitPercent ∧ 6/10 ≤ o.confidence ∧
      (∀ t, jsMapGet d.recentOpportunities (opportunityKey o) = some t →
        30000 ≤ now - t)) ∧
    (jsMapGet (shouldReportOpportunity d o now).2.recentOpportunities
        (opportunityKey o) = some now ∧
      (∀ e ∈ (shouldReportOpportunity d o now).2.recentOpportunities,
        now - 300000 ≤ e.2)) ∧
    (∀ o2 now2, opportunityKey o2 = opportunityKey o → now2 - now < 30000 →
      (shouldReportOpportunity (shouldReportOpportunity d o now).2 o2 now2).1 =
        false) := by
  rw [shouldReportOpportunity] at hacc
  by_cases h1 : o.netProfitPercent < d.profitThreshold
  · rw [if_pos h1] at hacc
    exact absurd hacc (by simp)
  rw [if_neg h1] at hacc
  by_cases h2 : o.confidence < 6/10
  · rw [if_pos h2] at hacc
    exact absurd hacc (by simp)
  rw [if_neg h2] at hacc
  by_cases h3 : now - ((jsMapGet d.recentOpportunities (opportunityKey o)).getD 0) < 30000
  · rw [if_pos h3] at hacc
    exact absurd hacc (by simp)
  have hres : shouldReportOpportunity d o now =
      (true, cleanupRecentOpportunities now
        { d with recentOpportunities :=
            jsMapSet d.recentOpportunities (opportunityKey o) now }) := by
    rw [shouldReportOpportunity, if_neg h1, if_neg h2, if_neg h3]
  have hpost : jsMapGet (shouldReportOpportunity d o now).2.recentOpportunities
      (opportunityKey o) = some now := by
    rw [hres]
    exact jsMapGet_filter _ _ _ _ (jsMapGet_set_self _ _ _)
      (by simp only [decide_eq_true_eq]; omega)
  refine ⟨⟨le_of_not_lt h1, le_of_not_lt h2, ?_⟩, ⟨hpost, ?_⟩, ?_⟩
  · intro t ht
    rw [ht] at h3
    simp only [Option.getD_some, not_lt] at h3
    exact h3
  · intro e he
    rw [hres] at he
    simp only [cleanupRecentOpportunities, List.mem_filter, decide_eq_true_eq] at he
    exact he.2
  · intro o2 now2 hk hlt
    rw [shouldReportOpportunity]
    by_cases g1 : o2.netProfitPercent < (shouldReportOpportunity d o now).2.profitThreshold
    · rw [if_pos g1]
    · rw [if_neg g1]
      by_cases g2 : o2.confidence < 6/10
      · rw [if_pos g2]
      · rw [if_neg g2]
        rw [if_pos]
        rw [hk, hpost]
        simp only [Option.getD_some]
        omega

theorem shouldReport_gating_witness :
    ((shouldReportOpportunity staleLedgerDetector gateOppGood 400000).1 = true) ∧
    ((staleLedgerDetector.profitThreshold ≤ gateOppGood.netProfitPercent ∧
        6/10 ≤ gateOppGood.confidence ∧
        (∀ t, jsMapGet staleLedgerDetector.recentOpportunities
          (opportunityKey gateOppGood) = some t → 30000 ≤ 400000 - t)) ∧
      (jsMapGet (shouldReportOpportunity staleLedgerDetector gateOppGood
          400000).2.recentOpportunities (opportunityKey gateOppGood) = some 400000 ∧
        (∀ e ∈ (shouldReportOpportunity staleLedgerDetector gateOppGood
          400000).2.recentOpportunities, 400000 - 300000 ≤ e.2)) ∧
      (∀ o2 now2, opportunityKey o2 = opportunityKey gateOppGood →
        now2 - 400000 < 30000 →
        (shouldReportOpportunity (shouldReportOpportunity staleLedgerDetector
          gateOppGood 400000).2 o2 now2).1 = false)) := by
  have hacc : (shouldReportOpportunity staleLedgerDetector gateOppGood 400000).1 = true := by
    have hc1 : ¬(gateOppGood.netProfitPercent < staleLedgerDetector.profitThreshold) := by
      norm_num [gateOppGood, staleLedgerDetector]
    have hc2 : ¬(gateOppGood.confidence < 6/10) := by
      norm_num [gateOppGood]
    have hc3 : ¬((400000 : ℤ) - (jsMapGet staleLedgerDetector.recentOpportunities
        (opportunityKey gateOppGood)).getD 0 < 30000) := by decide
    rw [shouldReportOpportunity, if_neg hc1, if_neg hc2, if_neg hc3]
  exact ⟨hacc, shouldReport_gating staleLedgerDetector gateOppGood 400000 hacc⟩


/-! ### Claim C4: bounded FIFO histories -/

theorem lastN_length {α : Type} (n : ℕ) (l : List α) :
    (lastN n l).length = min n l.length := by
  simp only [lastN, List.length_drop]
  omega

theorem lastN_of_le {α : Type} {n : ℕ} {l : List α} (h : l.length ≤ n) :
    lastN n l = l := by
  simp [lastN, Nat.sub_eq_zero_of_le h]

theorem lastN_lastN {α : Type} {m n : ℕ} (h : m ≤ n) (l : List α) :
    lastN m (lastN n l) = lastN m l := by
  simp only [lastN, List.drop_drop, List.length_drop]
  congr 1
  omega

theorem lastN_append {α : Type} (n : ℕ) (a b : List α) :
    lastN n (a ++ b) =
      if n ≤ b.length then lastN n b else lastN (n - b.length) a ++ b := by
  simp only [lastN, List.length_append, List.drop_append_eq_append_drop]
  by_cases h : n ≤ b.length
  · rw [if_pos h, List.drop_eq_nil_of_le (by omega)]
    simp only [List.nil_append]
    congr 1
    omega
  · rw [if_neg h]
    have h2 : a.length + b.length - n - a.length = 0 := by omega
    rw [h2, List.drop_zero]
    congr 2
    omega

/-- Trimming to the last `n` twice is the same as trimming once at the end:
`lastN` only depends on the last `n` elements. -/
theorem lastN_lastN_append {α : Type} (n : ℕ) (a r : List α) :
    lastN n (lastN n a ++ r) = lastN n (a ++ r) := by
  rw [lastN_append, lastN_append]
  by_cases h : n ≤ r.length
  · rw [if_pos h, if_pos h]
  · rw [if_neg h, if_neg h, lastN_lastN (by omega)]

/-- For a positive capacity, the source's trim
(`if len > maxSize then slice(-maxSize)`) keeps exactly the last `cap`
elements. -/
theorem trim_eq_lastN {α : Type} {cap : ℕ} (hcap : 1 ≤ cap) (l : List α) :
    (if cap < l.length then jsSliceLast cap l else l) = lastN cap l := by
  by_cases h : cap < l.length
  · rw [if_pos h]
    unfold jsSliceLast lastN
    rw [if_neg (by omega : ¬ cap = 0)]
  · rw [if_neg h, lastN_of_le (by omega)]

theorem historyPrices_length_le {cap : ℕ} {dm : DataManager} (hinv : DMInv cap dm)
    (k : String) : (historyPrices dm k).length ≤ cap := by
  unfold historyPrices
  cases hget : jsMapGet dm.priceHistory k with
  | none => simp
  | some h => simpa using (hinv.2.2.1 k h hget).2

/-- `storePriceQuote` under the invariant: the touched pair's history becomes
the last `cap` of (old history ++ [q]), other histories and the opportunity log
are untouched, and the invariant is preserved. -/
theorem storePriceQuote_spec {cap : ℕ} (hcap : 1 ≤ cap) {dm : DataManager}
    (hinv : DMInv cap dm) (q : PriceQuote) (now : ℤ) :
    DMInv cap (storePriceQuote dm q now) ∧
    historyPrices (storePriceQuote dm q now) (getPairKey q.pair) =
      lastN cap (historyPrices dm (getPairKey q.pair) ++ [q]) ∧
    (∀ k, k ≠ getPairKey q.pair →
      historyPrices (storePriceQuote dm q now) k = historyPrices dm k) ∧
    (storePriceQuote dm q now).opportunityHistory = dm.opportunityHistory := by
  obtain ⟨hsize, hosize, hentries, holen⟩ := hinv
  have hmax : ((jsMapGet dm.priceHistory (getPairKey q.pair)).getD
      { prices := [], maxSize := dm.maxHistorySize }).maxSize = cap := by
    cases hget : jsMapGet dm.priceHistory (getPairKey q.pair) with
    | none => simpa using hsize
    | some h => simpa using (hentries _ h hget).1
  have hprices : ((jsMapGet dm.priceHistory (getPairKey q.pair)).getD
      { prices := [], maxSize := dm.maxHistorySize }).prices =
      historyPrices dm (getPairKey q.pair) := by
    cases hget : jsMapGet dm.priceHistory (getPairKey q.pair) with
    | none => simp [historyPrices, hget]
    | some h => simp [historyPrices, hget]
  have hnewget : jsMapGet (storePriceQuote dm q now).priceHistory (getPairKey q.pair) =
      some (PriceHistory.mk (lastN cap (historyPrices dm (getPairKey q.pair) ++ [q])) cap) := by
    simp only [storePriceQuote, jsMapGet_set_self]
    rw [hmax, hprices, trim_eq_lastN hcap]
  have hself : historyPrices (storePriceQuote dm q now) (getPairKey q.pair) =
      lastN cap (historyPrices dm (getPairKey q.pair) ++ [q]) := by
    simp [historyPrices, hnewget]
  have hother : ∀ k, k ≠ getPairKey q.pair →
      historyPrices (storePriceQuote dm q now) k = historyPrices dm k := by
    intro k hk
    simp only [storePriceQuote, historyPrices]
    rw [jsMapGet_set_ne _ _ _ _ (Ne.symm hk)]
  refine ⟨⟨hsize, hosize, ?_, holen⟩, hself, hother, rfl⟩
  intro k h hget
  by_cases hk : k = getPairKey q.pair
  · subst hk
    rw [hnewget] at hget
    have hh : PriceHistory.mk (lastN cap (historyPrices dm (getPairKey q.pair) ++ [q])) cap
        = h := by
      simpa using hget
    refine ⟨by rw [← hh], ?_⟩
    rw [← hh]
    simp [lastN_length]
  · have hget' : jsMapGet dm.priceHistory k = some h := by
      have h2 := hget
      simp only [storePriceQuote] at h2
      rwa [jsMapGet_set_ne _ _ _ _ (Ne.symm hk)] at h2
    exact hentries k h hget'

/-- `storeOpportunity` under the invariant: the opportunity log becomes the
last 1000 of (old ++ [o]), price histories are untouched, invariant
preserved. -/
theorem storeOpportunity_spec {cap : ℕ} {dm : DataManager} (hinv : DMInv cap dm)
    (o : ArbitrageOpportunity) :
    DMInv cap (storeOpportunity dm o) ∧
    (storeOpportunity dm o).opportunityHistory.opportunities =
      lastN 1000 (dm.opportunityHistory.opportunities ++ [o]) ∧
    (storeOpportunity dm o).priceHistory = dm.priceHistory := by
  obtain ⟨hsize, hosize, hentries, holen⟩ := hinv
  have hops : (storeOpportunity dm o).opportunityHistory.opportunities =
      lastN 1000 (dm.opportunityHistory.opportunities ++ [o]) := by
    simp only [storeOpportunity]
    rw [hosize]
    exact trim_eq_lastN (by norm_num) _
  refine ⟨⟨hsize, by simp [storeOpportunity, hosize], hentries, ?_⟩, hops, rfl⟩
  rw [hops, lastN_length]
  omega

/-- Main induction: running any sequence of store operations from an
invariant-satisfying manager leaves each pair history equal to the last `cap`
of its prior contents followed by the arrivals for that pair, and the
opportunity log likewise with capacity 1000. -/
theorem runStoreOps_spec {cap : ℕ} (hcap : 1 ≤ cap) :
    ∀ (ops : List StoreOp) (dm : DataManager), DMInv cap dm →
      DMInv cap (runStoreOps dm ops) ∧
      (∀ k, historyPrices (runStoreOps dm ops) k =
        lastN cap (historyPrices dm k ++ priceArrivals k ops)) ∧
      ((runStoreOps dm ops).opportunityHistory.opportunities =
        lastN 1000 (dm.opportunityHistory.opportunities ++ oppArrivals ops)) := by
  intro ops
  induction ops with
  | nil =>
    intro dm hinv
    refine ⟨hinv, ?_, ?_⟩
    · intro k
      simp only [priceArrivals, List.filterMap_nil, List.append_nil, runStoreOps,
        List.foldl_nil]
      exact (lastN_of_le (historyPrices_length_le hinv k)).symm
    · simp only [oppArrivals, List.filterMap_nil, List.append_nil, runStoreOps,
        List.foldl_nil]
      exact (lastN_of_le hinv.2.2.2).symm
  | cons op ops ih =>
    intro dm hinv
    cases op with
    | storePrice q now =>
      have hrun : runStoreOps dm (StoreOp.storePrice q now :: ops) =
          runStoreOps (storePriceQuote dm q now) ops := rfl
      obtain ⟨hinv', hself, hother, hopp⟩ := storePriceQuote_spec hcap hinv q now
      obtain ⟨ih1, ih2, ih3⟩ := ih (storePriceQuote dm q now) hinv'
      refine ⟨by rwa [hrun], ?_, ?_⟩
      · intro k
        rw [hrun, ih2 k]
        by_cases hk : k = getPairKey q.pair
        · subst hk
          rw [hself, lastN_lastN_append, List.append_assoc]
          congr 2
          simp [priceArrivals]
        · rw [hother k hk]
          congr 1
          simp only [priceArrivals, List.filterMap_cons]
          rw [if_neg (by simpa using fun h => hk h.symm)]
      · rw [hrun, ih3, hopp]
        simp [oppArrivals]
    | storeOpp o =>
      have hrun : runStoreOps dm (StoreOp.storeOpp o :: ops) =
          runStoreOps (storeOpportunity dm o) ops := rfl
      obtain ⟨hinv', hops, hph⟩ := storeOpportunity_spec hinv o
      obtain ⟨ih1, ih2, ih3⟩ := ih (storeOpportunity dm o) hinv'
      refine ⟨by rwa [hrun], ?_, ?_⟩
      · intro k
        rw [hrun, ih2 k]
        have hsame : historyPrices (storeOpportunity dm o) k = historyPrices dm k := by
          simp [historyPrices, hph]
        rw [hsame]
        simp [priceArrivals]
      · rw [hrun, ih3, hops, lastN_lastN_append, List.append_assoc]
        simp [oppArrivals]

/-- Claim C4, amended (capacity at least 1): starting from a fresh manager,
after any sequence of `put`/`recordOpportunity` calls every per-pair price
history is exactly the last `cap` quotes that arrived for that pair (so its
length never exceeds the configured capacity, oldest dropped first), and the
opportunity history is exactly the last 1000 recorded opportunities.  With a
configured capacity of 0 the bound fails (see the counterexample): JS
`slice(-0)` is a no-op and the history grows without bound. -/
theorem history_buffers_bounded_fifo (ttl : ℤ) (cap : ℕ) (hcap : 1 ≤ cap)
    (ops : List StoreOp) :
    (∀ k, historyPrices (runStoreOps (DataManager.init ttl cap) ops) k =
        lastN cap (priceArrivals k ops) ∧
      (historyPrices (runStoreOps (DataManager.init ttl cap) ops) k).length ≤ cap) ∧
    ((runStoreOps (DataManager.init ttl cap) ops).opportunityHistory.opportunities =
        lastN 1000 (oppArrivals ops) ∧
      (runStoreOps (DataManager.init ttl cap)
        ops).opportunityHistory.opportunities.length ≤ 1000) := by
  have hinv : DMInv cap (DataManager.init ttl cap) := by
    refine ⟨rfl, rfl, ?_, by simp [DataManager.init]⟩
    intro k h hget
    simp [DataManager.init, jsMapGet] at hget
  obtain ⟨hinv', hhist, hopp⟩ := runStoreOps_spec hcap ops (DataManager.init ttl cap) hinv
  have h0h : ∀ k, historyPrices (DataManager.init ttl cap) k = [] := fun _ => rfl
  have h0o : (DataManager.init ttl cap).opportunityHistory.opportunities = [] := rfl
  constructor
  · intro k
    have h1 := hhist k
    rw [h0h k, List.nil_append] at h1
    refine ⟨h1, ?_⟩
    rw [h1, lastN_length]
    omega
  · rw [h0o, List.nil_append] at hopp
    refine ⟨hopp, ?_⟩
    rw [hopp, lastN_length]
    omega

theorem history_buffers_bounded_fifo_witness :
    (1 ≤ 2) ∧
    ((∀ k, historyPrices (runStoreOps (DataManager.init 30000 2) threeStores) k =
        lastN 2 (priceArrivals k threeStores) ∧
      (historyPrices (runStoreOps (DataManager.init 30000 2) threeStores) k).length ≤ 2) ∧
    ((runStoreOps (DataManager.init 30000 2)
        threeStores).opportunityHistory.opportunities =
          lastN 1000 (oppArrivals threeStores) ∧
      (runStoreOps (DataManager.init 30000 2)
        threeStores).opportunityHistory.opportunities.length ≤ 1000)) :=
  ⟨by norm_num, history_buffers_bounded_fifo 30000 2 (by norm_num) threeStores⟩

/-- Claim C4 counterexample: with a configured capacity of 0 the bound
`length ≤ capacity` fails after a single `put` — the source's trim is
`slice(-0)`, which returns the whole array, so nothing is ever dropped. -/
theorem history_capacity_zero_unbounded_cex :
    ¬ ((historyPrices (runStoreOps (DataManager.init 30000 0)
        [StoreOp.storePrice (mkQuote "Raydium" pairAB 100 500000 0) 0])
        (getPairKey pairAB)).length ≤
      (DataManager.init 30000 0).maxHistorySize) := by
  have h : historyPrices (runStoreOps (DataManager.init 30000 0)
      [StoreOp.storePrice (mkQuote "Raydium" pairAB 100 500000 0) 0])
      (getPairKey pairAB) = [mkQuote "Raydium" pairAB 100 500000 0] := by
    simp [runStoreOps, applyStoreOp, storePriceQuote, historyPrices, DataManager.init,
      jsMapGet, jsMapSet, jsSliceLast, mkQuote]
  rw [h]
  simp [DataManager.init]

/-! ### Claim C9: slippage is monotone in the trade-size/liquidity ratio and
hard-capped -/

theorem slippageFromRatio_num (r : ℚ) :
    slippageFromRatio (num r) = num ((if r ≤ 1/1000 then 1/100
      else if r ≤ 5/1000 then 5/100
      else if r ≤ 1/100 then 1/10
      else if r ≤ 5/100 then 3/10
      else min 2 (r * 10)) * (12/10)) := by
  unfold slippageFromRatio
  simp only [jleb, decide_eq_true_eq, jmin, jmul]
  split_ifs <;> rfl

/-- Claim C9: `calculateSlippage` is a function of the ratio
`tradeSize / liquidity` alone (via `slippageFromRatio`), it is monotone
non-decreasing in that ratio, and it is bounded by the hard cap
`2% × 1.2 = 2.4`. -/
theorem slippage_monotone_and_capped (r1 r2 : ℚ) (h : r1 ≤ r2) :
    (∀ (t : ℚ) (q : PriceQuote), calculateSlippage t q =
      slippageFromRatio (jdiv (num t) (num q.liquidity))) ∧
    ∃ s1 s2 : ℚ, slippageFromRatio (num r1) = num s1 ∧
      slippageFromRatio (num r2) = num s2 ∧ s1 ≤ s2 ∧ s2 ≤ 12/5 := by
  refine ⟨fun t q => rfl, _, _, slippageFromRatio_num r1, slippageFromRatio_num r2, ?_, ?_⟩
  · have hmono : (if r1 ≤ 1/1000 then (1:ℚ)/100
        else if r1 ≤ 5/1000 then 5/100
        else if r1 ≤ 1/100 then 1/10
        else if r1 ≤ 5/100 then 3/10
        else min 2 (r1 * 10)) ≤
        (if r2 ≤ 1/1000 then 1/100
        else if r2 ≤ 5/1000 then 5/100
        else if r2 ≤ 1/100 then 1/10
        else if r2 ≤ 5/100 then 3/10
        else min 2 (r2 * 10)) := by
      split_ifs <;>
        first
          | linarith
          | (refine le_min (by linarith) (by linarith))
          | (exact min_le_min le_rfl (by linarith))
    have h12 : (0:ℚ) ≤ 12/10 := by norm_num
    exact mul_le_mul_of_nonneg_right hmono h12
  · have hb : (if r2 ≤ 1/1000 then (1:ℚ)/100
        else if r2 ≤ 5/1000 then 5/100
        else if r2 ≤ 1/100 then 1/10
        else if r2 ≤ 5/100 then 3/10
        else min 2 (r2 * 10)) ≤ 2 := by
      split_ifs <;>
        first
          | linarith
          | exact min_le_left _ _
    nlinarith [hb]

theorem slippage_monotone_and_capped_witness :
    ((1 : ℚ)/2000 ≤ 1/10) ∧
    ((∀ (t : ℚ) (q : PriceQuote), calculateSlippage t q =
        slippageFromRatio (jdiv (num t) (num q.liquidity))) ∧
      ∃ s1 s2 : ℚ, slippageFromRatio (num (1/2000)) = num s1 ∧
        slippageFromRatio (num (1/10)) = num s2 ∧ s1 ≤ s2 ∧ s2 ≤ 12/5) :=
  ⟨by norm_num, slippage_monotone_and_capped (1/2000) (1/10) (by norm_num)⟩

/-! ### Claim C6: what `getAllLatestPrices` returns -/

theorem strContains_append_self (a b : String) : strContains (a ++ b) b = true := by
  unfold strContains
  apply List.any_eq_true.mpr
  refine ⟨b.data, ?_, List.isPrefixOf_iff_prefix.mpr (List.prefix_refl _)⟩
  rw [String.data_append]
  exact (List.mem_tails _ _).mpr (List.suffix_append a.data b.data)

theorem cacheKey_contains_pairKey (dex : String) (pair : TokenPair) :
    strContains (getPriceCacheKey dex pair) (getPairKey pair) = true := by
  unfold getPriceCacheKey getPairKey
  have h : dex ++ ":" ++ pair.baseMint ++ ":" ++ pair.quoteMint =
      (dex ++ ":") ++ (pair.baseMint ++ ":" ++ pair.quoteMint) := by
    simp only [String.append_assoc]
  rw [h]
  exact strContains_append_self _ _

theorem jsMapSet_mem {α : Type} (l : List (String × α)) (k : String) (v : α) :
    ∀ x ∈ jsMapSet l k v, x = (k, v) ∨ x ∈ l := by
  induction l with
  | nil => simp [jsMapSet]
  | cons e rest ih =>
    intro x hx
    by_cases he : e.1 = k
    · simp only [jsMapSet, he, if_true, eq_self_iff_true, List.mem_cons] at hx
      rcases hx with hx | hx
      · exact Or.inl hx
      · exact Or.inr (List.mem_cons_of_mem _ hx)
    · simp only [jsMapSet, he, if_neg, not_false_iff, List.mem_cons] at hx
      rcases hx with hx | hx
      · exact Or.inr (by simp [hx])
      · rcases ih x hx with h | h
        · exact Or.inl h
        · exact Or.inr (List.mem_cons_of_mem _ h)

theorem jsMapSet_mem_self {α : Type} (l : List (String × α)) (k : String) (v : α) :
    (k, v) ∈ jsMapSet l k v := by
  induction l with
  | nil => simp [jsMapSet]
  | cons e rest ih =>
    by_cases he : e.1 = k
    · simp [jsMapSet, he]
    · simp only [jsMapSet, he, if_neg, not_false_iff, List.mem_cons]
      exact Or.inr ih

theorem jsMapSet_mem_of_mem_ne {α : Type} (l : List (String × α)) (k : String) (v : α)
    (d : String) (q : α) (hne : d ≠ k) (hmem : (d, q) ∈ l) : (d, q) ∈ jsMapSet l k v := by
  induction l with
  | nil => simp at hmem
  | cons e rest ih =>
    by_cases he : e.1 = k
    · simp only [jsMapSet, he, if_true, eq_self_iff_true, List.mem_cons]
      rcases List.mem_cons.mp hmem with h | h
      · exact absurd (by rw [← h] at he; exact he) hne
      · exact Or.inr h
    · simp only [jsMapSet, he, if_neg, not_false_iff, List.mem_cons]
      rcases List.mem_cons.mp hmem with h | h
      · exact Or.inl h
      · exact Or.inr (ih h)

theorem jsMapSet_key_stays {α : Type} (l : List (String × α)) (k : String) (v : α)
    (d : String) (h : ∃ q, (d, q) ∈ l) : ∃ q, (d, q) ∈ jsMapSet l k v := by
  by_cases hd : d = k
  · exact ⟨v, hd ▸ jsMapSet_mem_self l k v⟩
  · obtain ⟨q, hq⟩ := h
    exact ⟨q, jsMapSet_mem_of_mem_ne l k v d q hd hq⟩

/-- Soundness of the `getAllLatestPrices` fold: anything in the accumulator
result came from the accumulator or from a matching, unexpired cache entry. -/
theorem getAllLatest_fold_sound (pair : TokenPair) (now : ℤ) :
    ∀ (l : List (String × CacheEntry)) (acc : List (String × PriceQuote))
      (x : String × PriceQuote),
      x ∈ l.foldl (fun acc kv =>
        if strContains kv.1 (getPairKey pair) then
          if now - kv.2.timestamp ≤ kv.2.ttl then jsMapSet acc kv.2.data.dex kv.2.data
          else acc
        else acc) acc →
      x ∈ acc ∨ ∃ kv, kv ∈ l ∧ strContains kv.1 (getPairKey pair) = true ∧
        now - kv.2.timestamp ≤ kv.2.ttl ∧ x = (kv.2.data.dex, kv.2.data) := by
  intro l
  induction l with
  | nil =>
    intro acc x hx
    exact Or.inl hx
  | cons e rest ih =>
    intro acc x hx
    rw [List.foldl_cons] at hx
    rcases ih _ x hx with h | ⟨kv, hkv, h1, h2, h3⟩
    · by_cases hc1 : strContains e.1 (getPairKey pair) = true
      · by_cases hc2 : now - e.2.timestamp ≤ e.2.ttl
        · rw [if_pos hc1, if_pos hc2] at h
          rcases jsMapSet_mem _ _ _ x h with h' | h'
          · exact Or.inr ⟨e, List.mem_cons_self _ _, hc1, hc2, h'⟩
          · exact Or.inl h'
        · rw [if_pos hc1, if_neg hc2] at h
          exact Or.inl h
      · rw [if_neg hc1] at h
        exact Or.inl h
    · exact Or.inr ⟨kv, List.mem_cons_of_mem _ hkv, h1, h2, h3⟩

/-- Completeness of the fold at the level of map keys: once a source name is
present it stays present, and every matching live entry deposits its source
name. -/
theorem getAllLatest_fold_keeps (pair : TokenPair) (now : ℤ) :
    ∀ (l : List (String × CacheEntry)) (acc : List (String × PriceQuote)) (d : String),
      (∃ q, (d, q) ∈ acc) →
      ∃ q, (d, q) ∈ l.foldl (fun acc kv =>
        if strContains kv.1 (getPairKey pair) then
          if now - kv.2.timestamp ≤ kv.2.ttl then jsMapSet acc kv.2.data.dex kv.2.data
          else acc
        else acc) acc := by
  intro l
  induction l with
  | nil =>
    intro acc d h
    exact h
  | cons e rest ih =>
    intro acc d h
    rw [List.foldl_cons]
    apply ih
    by_cases hc1 : strContains e.1 (getPairKey pair) = true
    · by_cases hc2 : now - e.2.timestamp ≤ e.2.ttl
      · rw [if_pos hc1, if_pos hc2]
        exact jsMapSet_key_stays _ _ _ d h
      · rwa [if_pos hc1, if_neg hc2]
    · rwa [if_neg hc1]

theorem getAllLatest_fold_complete (pair : TokenPair) (now : ℤ) :
    ∀ (l : List (String × CacheEntry)) (acc : List (String × PriceQuote))
      (kv : String × CacheEntry), kv ∈ l →
      strContains kv.1 (getPairKey pair) = true → now - kv.2.timestamp ≤ kv.2.ttl →
      ∃ q, (kv.2.data.dex, q) ∈ l.foldl (fun acc kv =>
        if strContains kv.1 (getPairKey pair) then
          if now - kv.2.timestamp ≤ kv.2.ttl then jsMapSet acc kv.2.data.dex kv.2.data
          else acc
        else acc) acc := by
  intro l
  induction l with
  | nil =>
    intro acc kv hkv
    simp at hkv
  | cons e rest ih =>
    intro acc kv hkv h1 h2
    rw [List.foldl_cons]
    rcases List.mem_cons.mp hkv with h | h
    · subst h
      apply getAllLatest_fold_keeps
      rw [if_pos h1, if_pos h2]
      exact ⟨kv.2.data, jsMapSet_mem_self _ _ _⟩
    · exact ih _ kv h h1 h2

/-- Claim C6, amended: `allLatest` is keyed by substring containment of the
pair key inside the cache key, not pair identity.  Every returned quote comes
from an unexpired cache entry whose key contains the pair key (in particular
no expired entry is ever returned), and conversely every unexpired cache
entry whose key contains the pair key — which includes every entry stored
under the pair's own cache keys — contributes its source name to the result.
A quote stored for a *different* pair whose cache key happens to contain the
queried pair's key can therefore also be returned (see the counterexample). -/
theorem allLatest_returns_live_matching_entries (dm : DataManager) (pair : TokenPair)
    (now : ℤ) :
    (∀ d q, (d, q) ∈ (getAllLatestPrices dm pair now).1 →
      ∃ k e, (k, e) ∈ dm.priceCache ∧ strContains k (getPairKey pair) = true ∧
        now - e.timestamp ≤ e.ttl ∧ q = e.data ∧ d = e.data.dex) ∧
    (∀ k e, (k, e) ∈ dm.priceCache → strContains k (getPairKey pair) = true →
      now - e.timestamp ≤ e.ttl →
      ∃ q, (e.data.dex, q) ∈ (getAllLatestPrices dm pair now).1) ∧
    (∀ dex, strContains (getPriceCacheKey dex pair) (getPairKey pair) = true) := by
  refine ⟨?_, ?_, fun dex => cacheKey_contains_pairKey dex pair⟩
  · intro d q hdq
    rcases getAllLatest_fold_sound pair now dm.priceCache [] (d, q) hdq with h | h
    · simp at h
    · obtain ⟨kv, hkv, h1, h2, h3⟩ := h
      refine ⟨kv.1, kv.2, by simpa using hkv, h1, h2, ?_, ?_⟩
      · exact congrArg Prod.snd h3
      · exact congrArg Prod.fst h3
  · intro k e hke h1 h2
    exact getAllLatest_fold_complete pair now dm.priceCache [] (k, e) hke h1 h2

theorem allLatest_returns_live_matching_entries_witness :
    (((getPriceCacheKey "DexL" pairAB,
        CacheEntry.mk (mkQuote "DexL" pairAB 101 600000 50000) 50000 30000) ∈
          dmLiveExpired.priceCache) ∧
      strContains (getPriceCacheKey "DexL" pairAB) (getPairKey pairAB) = true ∧
      (50000 : ℤ) - 50000 ≤ 30000) ∧
    (∃ q, ("DexL", q) ∈ (getAllLatestPrices dmLiveExpired pairAB 50000).1) := by
  have hmem : (getPriceCacheKey "DexL" pairAB,
      CacheEntry.mk (mkQuote "DexL" pairAB 101 600000 50000) 50000 30000) ∈
        dmLiveExpired.priceCache :=
    List.mem_cons_of_mem _ (List.mem_singleton.mpr rfl)
  refine ⟨⟨hmem, cacheKey_contains_pairKey _ _, by decide⟩, ?_⟩
  exact (allLatest_returns_live_matching_entries dmLiveExpired pairAB 50000).2.1
    (getPriceCacheKey "DexL" pairAB)
    (CacheEntry.mk (mkQuote "DexL" pairAB 101 600000 50000) 50000 30000)
    hmem (cacheKey_contains_pairKey _ _) (by decide)

/-- Claim C6 counterexample: a quote stored for a *different* pair is returned
by `allLatest` because key matching is by substring: the cache key
`DexZ:XMintA:MintB` (pair `XMintA/MintB`) contains the queried pair key
`MintA:MintB`, so the foreign quote shows up in the result for `MintA/MintB`. -/
theorem allLatest_cross_pair_leak_cex :
    (getAllLatestPrices dmCross pairAB 0).1 =
      [("DexZ", mkQuote "DexZ" pairX 100 500000 0)] ∧
    (mkQuote "DexZ" pairX 100 500000 0).pair ≠ pairAB := by
  constructor
  · rfl
  · intro h
    exact absurd (congrArg TokenPair.baseMint h) (by decide)

/-! ### Claim C5: the confidence score -/

theorem mev_isNum (tradeSize : ℚ) (totalSlippage : JSNum) (hour : ℕ) :
    isNum (calculateMevResistance tradeSize totalSlippage hour) := by
  simp only [calculateMevResistance]
  split_ifs <;> exact ⟨_, rfl⟩

theorem exec_isNum (now : ℤ) (hour : ℕ) (buyQuote sellQuote : PriceQuote) :
    isNum (calculateExecutionProbability now hour buyQuote sellQuote) := by
  simp only [calculateExecutionProbability]
  split_ifs <;> exact ⟨_, rfl⟩

set_option maxHeartbeats 2000000 in
theorem confidenceRaw_isNum (now : ℤ) (hour : ℕ) (b s : PriceQuote) (t : ℚ)
    (ht : t ≠ 0) : isNum (confidenceRaw now hour b s t) := by
  have h3 : t * 3 ≠ 0 := mul_ne_zero ht (by norm_num)
  have hb : isNum (jdiv (num b.liquidity) (num (t * 3))) :=
    ⟨_, jdiv_num_of_ne_zero _ h3⟩
  have hs : isNum (jdiv (num s.liquidity) (num (t * 3))) :=
    ⟨_, jdiv_num_of_ne_zero _ h3⟩
  simp only [confidenceRaw]
  split_ifs <;>
    (repeat'
      first
        | exact isNum_num _
        | exact mev_isNum _ _ _
        | exact exec_isNum _ _ _ _
        | exact hb
        | exact hs
        | apply isNum_jmul
        | apply isNum_jmax
        | apply isNum_jmin)

/-- Claim C5, amended (nonzero trade size): for every pair of input quotes
(arbitrary finite prices, liquidity — including zero — timestamps and optional
orderbook fields) and every nonzero trade size, `calculateConfidence` returns
a finite value in `[0.1, 1.0]`: the computation neither throws nor produces
`NaN`.  With a zero trade size the claim fails (see the counterexample): a
negative-liquidity quote next to a zero-liquidity one drives `0/0 = NaN`
through `Math.min`/`Math.max`, and the final clamp propagates `NaN`. -/
theorem confidence_clamped_in_range (now : ℤ) (hour : ℕ) (b s : PriceQuote) (t : ℚ)
    (ht : t ≠ 0) :
    ∃ c : ℚ, calculateConfidence now hour b s t = num c ∧ 1/10 ≤ c ∧ c ≤ 1 := by
  have h := clamp_isNum (confidenceRaw_isNum now hour b s t ht)
  simpa [calculateConfidence] using h

theorem confidence_clamped_in_range_witness :
    ((100 : ℚ) ≠ 0) ∧
    (∃ c : ℚ, calculateConfidence 0 3 zeroLiqBuy zeroLiqSell 100 = num c ∧
      1/10 ≤ c ∧ c ≤ 1) :=
  ⟨by norm_num, confidence_clamped_in_range 0 3 zeroLiqBuy zeroLiqSell 100 (by norm_num)⟩

/-- Claim C5 counterexample: with trade size `0`, a zero-liquidity buy quote
and a negative-liquidity sell quote, the confidence computation returns `NaN`
(so it is not within `[0.1, 1.0]`): `minLiquidity = 0`, the liquidity branch
is taken because `-1 < 0`, `buyRatio = 0/0 = NaN`, and `NaN` propagates
through `Math.min`, `Math.max`, the multiplications and the final clamp. -/
theorem confidence_nan_cex :
    calculateConfidence 0 0 cexBuyQuote cexSellQuote 0 = JSNum.nan := by
  norm_num [calculateConfidence, confidenceRaw, cexBuyQuote, cexSellQuote, mkQuote,
    pairAB, calculateSlippage, slippageFromRatio, jdiv, jmin, jmax, jmul, jadd,
    jleb, jltb, jgtb, truthyField]

end Arb
